import Mathlib

/-!
# Verification of the coworktree CoW worktree manager

Shallow embedding of the core algorithms of the `cowgit` package:
the gitignore matcher and path rewriter (`pkg/cowgit/pathrewrite.go`),
the parallel clone pools and their scaling controllers, the depth-limited
directory enumeration, and the worktree setup / manual registration
protocol (`pkg/cowgit/worktree.go`).

Strings are modelled as `List Char` (Go `strings.*` operations map to the
corresponding list operations; Go strings are byte-indexed, which agrees
with `List Char` on the ASCII patterns and paths used here).  File contents
are modelled as `List Nat` (byte sequences).
-/

namespace Coworktree

/-! ## Gitignore matcher (pkg/cowgit/pathrewrite.go)

`matchWildcard` and `matchPattern` are direct translations of the Go
functions.  `strings.HasPrefix s p` is `p.isPrefixOf s`,
`strings.HasSuffix s p` is `p.isSuffixOf s`, `strings.TrimSuffix p "/"`
under a `HasSuffix` guard is `p.dropLast`, and `strings.Split p "*"`
is splitting on the element `*`. -/

/-- Splits a character list on the character `*`
(models `strings.Split(pattern, "*")`). -/
def splitStar : List Char → List (List Char)
  | [] => [[]]
  | c :: rest =>
    if c = '*' then [] :: splitStar rest
    else
      match splitStar rest with
      | r :: rs => (c :: r) :: rs
      | [] => [[c]]

/-- Models `matchWildcard` from pathrewrite.go. -/
def matchWildcard (pattern path : List Char) : Bool :=
  if pattern = ['*'] then true
  else if ['*', '.'].isPrefixOf pattern then
    -- ext := pattern[1:]
    (pattern.drop 1).isSuffixOf path
  else if ['*'].isSuffixOf pattern then
    -- prefix := pattern[:len(pattern)-1]
    pattern.dropLast.isPrefixOf path
  else
    match splitStar pattern with
    | [a, b] => a.isPrefixOf path && b.isSuffixOf path
    | _ => false

/-- Models `matchPattern` from pathrewrite.go. -/
def matchPattern (pattern path : List Char) : Bool :=
  if ['/'].isSuffixOf pattern then
    -- pattern = strings.TrimSuffix(pattern, "/")
    let p := pattern.dropLast
    (p ++ ['/']).isPrefixOf path || path == p
  else if pattern.contains '*' then
    matchWildcard pattern path
  else
    path == pattern || (pattern ++ ['/']).isPrefixOf path

/-- Models the `GitIgnore` struct: an ordered list of raw patterns. -/
structure GitIgnore where
  patterns : List (List Char)

/-- Models `GitIgnore.Match`: the Go loop returns true as soon as one
pattern matches, i.e. `any`. -/
def GitIgnore.Match (g : GitIgnore) (relPath : List Char) : Bool :=
  g.patterns.any fun pattern => matchPattern pattern relPath

/-- ASCII whitespace recognised by `strings.TrimSpace`
(`unicode.IsSpace` restricted to ASCII, which covers the gitignore
contents considered here). -/
def isSpaceChar (c : Char) : Bool :=
  c = ' ' || c = '\t' || c = '\n' || c = '\x0b' || c = '\x0c' || c = '\r'

/-- Models `strings.TrimSpace`. -/
def trimSpace (l : List Char) : List Char :=
  ((l.dropWhile isSpaceChar).reverse.dropWhile isSpaceChar).reverse

/-- Models `parseGitignore` from pathrewrite.go.  Input: `none` when the
.gitignore file cannot be opened, otherwise the list of scanned lines.
Each line is trimmed; blank lines and lines starting with `#` are
skipped, everything else becomes a pattern. -/
def parseGitignore (file : Option (List (List Char))) : GitIgnore :=
  match file with
  | none => ⟨[]⟩
  | some lines =>
    ⟨(lines.map trimSpace).filter fun line =>
      !line.isEmpty && !(['#'].isPrefixOf line)⟩

/-! ## Text/binary classification (`isValidText`, pathrewrite.go) -/

/-- A UTF-8 continuation byte (0x80–0xBF). -/
def isCont (b : Nat) : Bool := 128 ≤ b && b ≤ 191

/-- Models `utf8.Valid` from the Go standard library: the byte-level
acceptance automaton for well-formed UTF-8 (rejecting surrogates,
overlong encodings and code points above U+10FFFF), written out with the
same first-byte/accept-range classification as Go's `utf8.first` and
`utf8.acceptRanges` tables. -/
def utf8Valid : List Nat → Bool
  | [] => true
  | b :: rest =>
    if b < 128 then utf8Valid rest
    else if 194 ≤ b && b ≤ 223 then
      match rest with
      | b1 :: rest2 => isCont b1 && utf8Valid rest2
      | [] => false
    else if b = 224 then
      match rest with
      | b1 :: b2 :: rest3 => (160 ≤ b1 && b1 ≤ 191) && isCont b2 && utf8Valid rest3
      | _ => false
    else if b = 237 then
      match rest with
      | b1 :: b2 :: rest3 => (128 ≤ b1 && b1 ≤ 159) && isCont b2 && utf8Valid rest3
      | _ => false
    else if (225 ≤ b && b ≤ 236) || (238 ≤ b && b ≤ 239) then
      match rest with
      | b1 :: b2 :: rest3 => isCont b1 && isCont b2 && utf8Valid rest3
      | _ => false
    else if b = 240 then
      match rest with
      | b1 :: b2 :: b3 :: rest4 =>
        (144 ≤ b1 && b1 ≤ 191) && isCont b2 && isCont b3 && utf8Valid rest4
      | _ => false
    else if 241 ≤ b && b ≤ 243 then
      match rest with
      | b1 :: b2 :: b3 :: rest4 =>
        isCont b1 && isCont b2 && isCont b3 && utf8Valid rest4
      | _ => false
    else if b = 244 then
      match rest with
      | b1 :: b2 :: b3 :: rest4 =>
        (128 ≤ b1 && b1 ≤ 143) && isCont b2 && isCont b3 && utf8Valid rest4
      | _ => false
    else false

/-- The printable test from `isValidText`:
`b >= 32 && b <= 126 || b == '\t' || b == '\n' || b == '\r'`. -/
def isPrintableByte (b : Nat) : Bool :=
  (32 ≤ b && b ≤ 126) || b = 9 || b = 10 || b = 13

/-- The `printableCount` accumulated by the loop in `isValidText`. -/
def printableCount (content : List Nat) : Nat :=
  content.countP isPrintableByte

/-- Models `isValidText` from pathrewrite.go.  The Go density test
`float64(printableCount)/float64(len(content)) < 0.95` is modelled by the
exact rational comparison `100 * printableCount < 95 * len`. -/
def isValidText (content : List Nat) : Bool :=
  if !utf8Valid content then false
  -- bytes.Contains(content, []byte{0})
  else if content.contains 0 then false
  else if 0 < content.length ∧ 100 * printableCount content < 95 * content.length then
    false
  else true

/-! ## Byte replacement (`bytes.ReplaceAll`) and occurrence counting -/

/-- Models `bytes.ReplaceAll(s, old, new)` for a non-empty `old`: greedy
left-to-right replacement of non-overlapping occurrences, exactly as
`bytes.Replace` with `n = Count(s, old)` performs it.  (The Go
empty-`old` branch interleaves `new` between runes; the caller
`processFile` passes the absolute source directory path, which is
non-empty, so that branch is never exercised and an empty `old` is here
mapped to the identity scan.) -/
def replaceAll (old new : List Nat) : List Nat → List Nat
  | [] => []
  | b :: rest =>
    if old ≠ [] ∧ old.isPrefixOf (b :: rest) then
      new ++ replaceAll old new (rest.drop (old.length - 1))
    else
      b :: replaceAll old new rest
termination_by s => s.length
decreasing_by
  · simp only [List.length_drop, List.length_cons]
    omega
  · simp only [List.length_cons]
    omega

/-- Number of positions at which `p` occurs in `s` (all positions,
including overlapping ones); only used with `p ≠ []`. -/
def occ (p : List Nat) : List Nat → Nat
  | [] => 0
  | b :: rest => (if p.isPrefixOf (b :: rest) then 1 else 0) + occ p rest

/-- `joinWith sep [c₀, c₁, …, cₖ] = c₀ ++ sep ++ c₁ ++ sep ++ … ++ cₖ`. -/
def joinWith (sep : List Nat) : List (List Nat) → List Nat
  | [] => []
  | [c] => c
  | c :: cs => c ++ sep ++ joinWith sep cs

/-! ## The rewrite pass (`WorkerPool.processFile`) -/

/-- Result of processing one file: the content left on disk and whether
`os.WriteFile` was invoked. -/
structure RewriteOutcome where
  newContent : List Nat
  wrote : Bool
  deriving DecidableEq, Repr

namespace WorkerPool

/-- Models `WorkerPool.processFile`: the effect of the rewrite pass on
one file of the destination tree.  `relPath` is the path of the file
relative to the destination root (`filepath.Rel(p.dstDir, path)`),
`srcDirBytes`/`dstDirBytes` the byte forms of the absolute source and
destination roots, `content` the bytes read from the file.  Files whose
relative path does not match the gitignore, and files not classified as
text, are left untouched; otherwise every occurrence of the source root
is replaced by the destination root and the file is written back only if
that changed the content. -/
def processFile (g : GitIgnore) (srcDirBytes dstDirBytes : List Nat)
    (relPath : List Char) (content : List Nat) : RewriteOutcome :=
  if !g.Match relPath then ⟨content, false⟩
  else if !isValidText content then ⟨content, false⟩
  else
    let updated := replaceAll srcDirBytes dstDirBytes content
    if content ≠ updated then ⟨updated, true⟩ else ⟨content, false⟩

end WorkerPool

/-! ## Worker pools: dynamic add/remove with a floor

All three pools (`CoWPool`, `AtomicClonePool`, `WorkerPool`) keep their
active workers in a map `activeWorkers : map[int]chan struct{}`, modelled
here as the list of live worker ids.  `RemoveWorker` refuses to shrink at
or below `max(runtime.NumCPU()/2, 1)`; otherwise it stops one worker
(the first one the map iteration yields — modelled as the head of the
list).  `numCPU` models `runtime.NumCPU()`. -/

/-- `max(runtime.NumCPU()/2, 1)`, the removal floor shared by all three
pool implementations. -/
def minWorkers (numCPU : Nat) : Nat := max (numCPU / 2) 1

namespace CoWPool

/-- Models `CoWPool.RemoveWorker`: result flag and updated worker set. -/
def RemoveWorker (numCPU : Nat) (activeWorkers : List Nat) : Bool × List Nat :=
  if activeWorkers.length ≤ minWorkers numCPU then (false, activeWorkers)
  else
    match activeWorkers with
    | [] => (false, [])
    | _ :: rest => (true, rest)

/-- Models `CoWPool.AddWorker`: unconditionally registers one new worker. -/
def AddWorker (activeWorkers : List Nat) (newId : Nat) : List Nat :=
  newId :: activeWorkers

end CoWPool

namespace AtomicClonePool

/-- Models `AtomicClonePool.RemoveWorker` (same body as the CoW pool). -/
def RemoveWorker (numCPU : Nat) (activeWorkers : List Nat) : Bool × List Nat :=
  if activeWorkers.length ≤ minWorkers numCPU then (false, activeWorkers)
  else
    match activeWorkers with
    | [] => (false, [])
    | _ :: rest => (true, rest)

end AtomicClonePool

namespace WorkerPool

/-- Models `WorkerPool.RemoveWorker` (same body as the CoW pool). -/
def RemoveWorker (numCPU : Nat) (activeWorkers : List Nat) : Bool × List Nat :=
  if activeWorkers.length ≤ minWorkers numCPU then (false, activeWorkers)
  else
    match activeWorkers with
    | [] => (false, [])
    | _ :: rest => (true, rest)

end WorkerPool

/-- A worker-management call on a started pool: `AddWorker` (with the id
the pool assigns) or `RemoveWorker`. -/
inductive PoolOp where
  | addW (id : Nat)
  | removeW
  deriving DecidableEq, Repr

/-- Runs a sequence of add/remove calls against the active-worker set. -/
def runOps (numCPU : Nat) : List PoolOp → List Nat → List Nat
  | [], ws => ws
  | PoolOp.addW id :: ops, ws => runOps numCPU ops (CoWPool.AddWorker ws id)
  | PoolOp.removeW :: ops, ws => runOps numCPU ops (CoWPool.RemoveWorker numCPU ws).2

/-- Models `Start()`: all three pools spawn `runtime.NumCPU()` initial
workers. -/
def startWorkers (numCPU : Nat) : List Nat := List.range numCPU

/-! ## Scaling controllers

Each controller tick computes `processingRate` (a float, modelled as an
exact rational) and calls `adjustWorkers`.  `sinceLastAdjust` models
`time.Since(c.lastAdjust)` in seconds. -/

/-- The single adjustment a controller tick can decide on. -/
inductive Adjust where
  | addOne
  | tryRemove
  | noAdjust
  deriving DecidableEq, Repr

namespace CoWPoolController

/-- Models `CoWPoolController.adjustWorkers`: K = 10, cap = 2 × CPUs,
low-activity threshold 5. -/
def adjustWorkers (numCPU : Nat) (sinceLastAdjust : ℚ)
    (queueDepth workers : Nat) (processingRate : ℚ) : Adjust :=
  if sinceLastAdjust < 1 then Adjust.noAdjust
  else if queueDepth > workers * 10 ∧ workers < numCPU * 2 ∧ processingRate > 0 then
    Adjust.addOne
  else if queueDepth = 0 ∧ processingRate < 5 then Adjust.tryRemove
  else Adjust.noAdjust

end CoWPoolController

namespace AtomicCloneController

/-- Models `AtomicCloneController.adjustWorkers`: K = 5, cap = 2 × CPUs,
low-activity threshold 1. -/
def adjustWorkers (numCPU : Nat) (sinceLastAdjust : ℚ)
    (queueDepth workers : Nat) (processingRate : ℚ) : Adjust :=
  if sinceLastAdjust < 1 then Adjust.noAdjust
  else if queueDepth > workers * 5 ∧ workers < numCPU * 2 ∧ processingRate > 0 then
    Adjust.addOne
  else if queueDepth = 0 ∧ processingRate < 1 then Adjust.tryRemove
  else Adjust.noAdjust

end AtomicCloneController

namespace PoolController

/-- Models `PoolController.adjustWorkers` (path-rewrite pool): K = 5,
cap = 4 × CPUs, low-activity threshold 1. -/
def adjustWorkers (numCPU : Nat) (sinceLastAdjust : ℚ)
    (queueDepth workers : Nat) (processingRate : ℚ) : Adjust :=
  if sinceLastAdjust < 1 then Adjust.noAdjust
  else if queueDepth > workers * 5 ∧ workers < numCPU * 4 ∧ processingRate > 0 then
    Adjust.addOne
  else if queueDepth = 0 ∧ processingRate < 1 then Adjust.tryRemove
  else Adjust.noAdjust

end PoolController

/-- The effect of one controller decision on the active-worker set
(`AddWorker` on `addOne`, `RemoveWorker` — with its floor — on
`tryRemove`). -/
def applyAdjust (numCPU : Nat) (ws : List Nat) (newId : Nat) : Adjust → List Nat
  | Adjust.addOne => CoWPool.AddWorker ws newId
  | Adjust.tryRemove => (CoWPool.RemoveWorker numCPU ws).2
  | Adjust.noAdjust => ws

/-! ## File-level clone fallback (`CoWPool.processCoWTask`) -/

/-- The file kinds `processCoWTask` distinguishes via `os.FileInfo.Mode()`:
`IsDir`, `IsRegular`, `ModeSymlink`, and everything else (sockets, pipes,
devices, …). -/
inductive EntryKind where
  | dir
  | regular
  | symlink
  | other
  deriving DecidableEq, Repr

/-- The slice of `os.FileInfo` that `processCoWTask` consults. -/
structure FileInfoGo where
  kind : EntryKind
  perm : Nat
  deriving DecidableEq, Repr

/-- Models the `CoWTask` struct. -/
structure CoWTask where
  srcPath : String
  dstPath : String
  info : FileInfoGo
  deriving DecidableEq, Repr

/-- Filesystem calls issued by `processCoWTask`, in order.
`mkdirAllDirOf p` stands for `os.MkdirAll(filepath.Dir(p), 0755)`;
`copyFile` stands for the open/create/io.Copy sequence of `regularCopy`
(creating the destination with the source mode bits). -/
inductive FsAction where
  | mkdirAll (path : String) (perm : Nat)
  | mkdirAllDirOf (path : String)
  | clonefile (src dst : String)
  | copyFile (src dst : String) (perm : Nat)
  | readlink (path : String)
  | symlink (target dst : String)
  deriving DecidableEq, Repr

/-- Outcomes of the OS calls a task may perform (the oracles the shallow
embedding threads through in place of real filesystem effects). -/
structure CoWEnv where
  mkdirOk : Bool
  cloneOk : Bool
  copyOk : Bool
  readlinkResult : Option String
  symlinkOk : Bool
  deriving DecidableEq, Repr

/-- What one `processCoWTask` invocation did: its filesystem actions, its
result (`some msg` = the error returned), and the counter increments. -/
structure TaskOutcome where
  actions : List FsAction
  err : Option String
  copiedFiles : Nat
  skippedFiles : Nat
  directories : Nat
  regularFiles : Nat
  symlinks : Nat
  deriving DecidableEq, Repr

namespace CoWPool

/-- Models `CoWPool.processCoWTask` (pathrewrite.go): directories are
created with `os.MkdirAll`; for non-directories the parent is created
first; regular files try `unix.Clonefile` and fall back to `regularCopy`
(which preserves the source mode bits); symlinks are re-created via
`os.Readlink`/`os.Symlink`; anything else is counted skipped and
succeeds. -/
def processCoWTask (env : CoWEnv) (task : CoWTask) : TaskOutcome :=
  match task.info.kind with
  | EntryKind.dir =>
    if env.mkdirOk then
      ⟨[FsAction.mkdirAll task.dstPath task.info.perm], none, 1, 0, 1, 0, 0⟩
    else
      ⟨[FsAction.mkdirAll task.dstPath task.info.perm],
        some "mkdirall failed", 0, 0, 0, 0, 0⟩
  | EntryKind.regular =>
    if ¬env.mkdirOk then
      ⟨[FsAction.mkdirAllDirOf task.dstPath], some "mkdirall failed", 0, 0, 0, 0, 0⟩
    else if env.cloneOk then
      ⟨[FsAction.mkdirAllDirOf task.dstPath,
        FsAction.clonefile task.srcPath task.dstPath], none, 1, 0, 0, 1, 0⟩
    else if env.copyOk then
      ⟨[FsAction.mkdirAllDirOf task.dstPath,
        FsAction.clonefile task.srcPath task.dstPath,
        FsAction.copyFile task.srcPath task.dstPath task.info.perm],
        none, 0, 1, 0, 1, 0⟩
    else
      ⟨[FsAction.mkdirAllDirOf task.dstPath,
        FsAction.clonefile task.srcPath task.dstPath,
        FsAction.copyFile task.srcPath task.dstPath task.info.perm],
        some "copy failed", 0, 1, 0, 1, 0⟩
  | EntryKind.symlink =>
    if ¬env.mkdirOk then
      ⟨[FsAction.mkdirAllDirOf task.dstPath], some "mkdirall failed", 0, 0, 0, 0, 0⟩
    else
      match env.readlinkResult with
      | none =>
        ⟨[FsAction.mkdirAllDirOf task.dstPath, FsAction.readlink task.srcPath],
          some "readlink failed", 0, 0, 0, 0, 1⟩
      | some target =>
        if env.symlinkOk then
          ⟨[FsAction.mkdirAllDirOf task.dstPath, FsAction.readlink task.srcPath,
            FsAction.symlink target task.dstPath], none, 1, 0, 0, 0, 1⟩
        else
          ⟨[FsAction.mkdirAllDirOf task.dstPath, FsAction.readlink task.srcPath,
            FsAction.symlink target task.dstPath],
            some "symlink failed", 1, 0, 0, 0, 1⟩
  | EntryKind.other =>
    if ¬env.mkdirOk then
      ⟨[FsAction.mkdirAllDirOf task.dstPath], some "mkdirall failed", 0, 0, 0, 0, 0⟩
    else
      ⟨[FsAction.mkdirAllDirOf task.dstPath], none, 0, 1, 0, 0, 0⟩

end CoWPool

/-! ## Depth-limited directory enumeration (`findDirectoriesAtDepth`)

The source tree is a rose tree of named entries.  `filepath.Walk` visits
a directory before its contents and, if the callback returns
`filepath.SkipDir` for a directory, skips that directory's contents but
continues with its siblings.  Relative paths are modelled as the list of
path components below the root, so `strings.Count(relPath, "/") + 1`
is the component count; the root itself has `relPath == "."`, modelled
as the empty component list. -/

/-- A filesystem entry: a file or a directory with children. -/
inductive Entry where
  | file (name : String)
  | dir (name : String) (children : List Entry)

/-- Name of an entry. -/
def Entry.name : Entry → String
  | Entry.file n => n
  | Entry.dir n _ => n

mutual

/-- Models the `filepath.Walk` callback of `findDirectoriesAtDepth` on
the entry whose relative path below the root is `rp` (the root has
`rp = []`).  Returns `(visitedDirs, targets)`: the relative paths of all
directories the callback was invoked on, and the relative paths
collected as `AtomicCloneTask` targets.  A directory at depth equal to
`targetDepth` is recorded and its children are skipped (`SkipDir`);
a deeper directory would also be skipped, and shallower directories are
recursed into. -/
def walkFind (targetDepth : Nat) (rp : List String) :
    Entry → List (List String) × List (List String)
  | Entry.file _ => ([], [])
  | Entry.dir _ children =>
    if rp = [] then
      -- relPath == ".": continue into the children
      let sub := walkFindList targetDepth rp children
      ([] :: sub.1, sub.2)
    else if rp.length = targetDepth then ([rp], [rp])
    else if targetDepth < rp.length then ([rp], [])
    else
      let sub := walkFindList targetDepth rp children
      (rp :: sub.1, sub.2)

/-- Walks the children of a directory whose relative path is `rp`, in
order. -/
def walkFindList (targetDepth : Nat) (rp : List String) :
    List Entry → List (List String) × List (List String)
  | [] => ([], [])
  | e :: es =>
    let r1 := walkFind targetDepth (rp ++ [e.name]) e
    let r2 := walkFindList targetDepth rp es
    (r1.1 ++ r2.1, r1.2 ++ r2.2)

end

mutual

/-- Relative paths of all directories in the tree (including the root,
as `rp` itself), in pre-order — the reference enumeration the walk is
compared against. -/
def allDirPaths (rp : List String) : Entry → List (List String)
  | Entry.file _ => []
  | Entry.dir _ children => rp :: allDirPathsList rp children

/-- `allDirPaths` over a list of children. -/
def allDirPathsList (rp : List String) : List Entry → List (List String)
  | [] => []
  | e :: es => allDirPaths (rp ++ [e.name]) e ++ allDirPathsList rp es

end

/-! ## Worktree setup and manual registration (pkg/cowgit/worktree.go)

The external effects (git commands, the clone, file writes) are replaced
by success/failure oracles in `WtEnv`; the error strings are the
formatted messages of worktree.go (modelled as `List Char`).  The action
trace records which external operations were issued and in which order.
`os.RemoveAll` on the destination is modelled as always leaving the
destination absent (its own error value is discarded by the Go code on
the cleanup paths; the atomic `CloneDirectory` either populates the
destination or leaves nothing). -/

/-- External operations performed by `CreateCoWWorktree` and its
callees. -/
inductive WAction where
  | gitWorktreeRemove
  | gitRevParseHEAD
  | removeAllDest
  | cloneDirectory
  | gitBranch
  | gitSymbolicRef
  | registerWorktree
  | rewritePaths
  | gitWorktreeAddFallback
  deriving DecidableEq, Repr

/-- Oracles for the external calls of the worktree setup.
`revParse` is the result of `git rev-parse HEAD` in the origin repo:
`.ok hash` or `.error msg` with `msg` the `err.Error()` string. -/
structure WtEnv where
  revParse : Except (List Char) (List Char)
  cloneOk : Bool
  branchOk : Bool
  symrefOk : Bool
  mkdirMetaOk : Bool
  writeHeadOk : Bool
  writeCommondirOk : Bool
  writeGitdirOk : Bool
  removeGitDirOk : Bool
  writeGitFileOk : Bool
  fallbackOk : Bool

/-- Models `strings.Contains(s, pat)`. -/
def strContains : List Char → List Char → Bool
  | s, pat =>
    pat.isPrefixOf s ||
      match s with
      | [] => false
      | _ :: rest => strContains rest pat

namespace Worktree

/-- Models `registerWorktreeManually`: mkdir of the metadata directory,
the HEAD / commondir / gitdir writes, removal of the clone-inherited
.git directory, and the pointer-file write — in that order, each failure
returning immediately. -/
def registerWorktreeManually (env : WtEnv) : Except (List Char) Unit :=
  if ¬env.mkdirMetaOk then
    Except.error "failed to create worktree metadata directory".toList
  else if ¬env.writeHeadOk then
    Except.error "failed to write HEAD file".toList
  else if ¬env.writeCommondirOk then
    Except.error "failed to write commondir file".toList
  else if ¬env.writeGitdirOk then
    Except.error "failed to write gitdir file".toList
  else if ¬env.removeGitDirOk then
    Except.error "failed to remove .git directory".toList
  else if ¬env.writeGitFileOk then
    Except.error "failed to write .git file".toList
  else Except.ok ()

/-- What a `setupWorktreeWithCoW` run did: trace, result, and whether a
directory is present at the destination path afterwards. -/
structure SetupOutcome where
  actions : List WAction
  result : Except (List Char) Unit
  destExists : Bool

/-- Models `setupWorktreeWithCoW`: remove any stale destination, clone,
create the branch, repoint HEAD via `git symbolic-ref`, register the
worktree manually; on a failure of any of the three registration steps
the destination is removed with `os.RemoveAll` before the error is
returned.  The final best-effort path rewrite never affects the
result. -/
def setupWorktreeWithCoW (env : WtEnv) : SetupOutcome :=
  if ¬env.cloneOk then
    ⟨[WAction.removeAllDest, WAction.cloneDirectory],
      Except.error "failed to clone directory".toList, false⟩
  else if ¬env.branchOk then
    ⟨[WAction.removeAllDest, WAction.cloneDirectory, WAction.gitBranch,
      WAction.removeAllDest],
      Except.error "failed to create branch".toList, false⟩
  else if ¬env.symrefOk then
    ⟨[WAction.removeAllDest, WAction.cloneDirectory, WAction.gitBranch,
      WAction.gitSymbolicRef, WAction.removeAllDest],
      Except.error "failed to switch to branch".toList, false⟩
  else
    match registerWorktreeManually env with
    | Except.error e =>
      ⟨[WAction.removeAllDest, WAction.cloneDirectory, WAction.gitBranch,
        WAction.gitSymbolicRef, WAction.registerWorktree, WAction.removeAllDest],
        Except.error ("failed to register worktree: ".toList ++ e), false⟩
    | Except.ok _ =>
      ⟨[WAction.removeAllDest, WAction.cloneDirectory, WAction.gitBranch,
        WAction.gitSymbolicRef, WAction.registerWorktree, WAction.rewritePaths],
        Except.ok (), true⟩

/-- The three `strings.Contains` patterns `CreateCoWWorktree` checks the
`rev-parse` error against (the apostrophes of the Go literals written as
`Char.ofNat 39`). -/
def headPattern1 : List Char :=
  "fatal: ambiguous argument ".toList ++ [Char.ofNat 39] ++ "HEAD".toList
    ++ [Char.ofNat 39]

/-- Second pattern: a generic invalid-object message. -/
def headPattern2 : List Char := "fatal: not a valid object name".toList

/-- Third pattern: the HEAD-specific invalid-object message. -/
def headPattern3 : List Char := "fatal: HEAD: not a valid object name".toList

/-- The friendly error returned for a repository without commits. -/
def newRepoMsg : List Char :=
  ("this appears to be a brand new repository: " ++
    "please create an initial commit before creating a worktree").toList

/-- Models `CreateCoWWorktree`: best-effort removal of an existing
worktree registration, `git rev-parse HEAD` (with the brand-new-repo
detection on its error string), then the CoW setup, falling back to
`git worktree add -b` when the CoW setup fails. -/
def CreateCoWWorktree (env : WtEnv) : List WAction × Except (List Char) Unit :=
  let acts := [WAction.gitWorktreeRemove, WAction.gitRevParseHEAD]
  match env.revParse with
  | Except.error e =>
    if strContains e headPattern1 || strContains e headPattern2
        || strContains e headPattern3 then
      (acts, Except.error newRepoMsg)
    else
      (acts, Except.error ("failed to get HEAD commit hash: ".toList ++ e))
  | Except.ok _ =>
    let s := setupWorktreeWithCoW env
    match s.result with
    | Except.ok _ => (acts ++ s.actions, Except.ok ())
    | Except.error _ =>
      (acts ++ s.actions ++ [WAction.gitWorktreeAddFallback],
        if env.fallbackOk then Except.ok ()
        else Except.error "failed to create worktree from commit".toList)

end Worktree

/-! ## Shared helper lemmas -/

theorem isPrefixOf_append_self {α : Type} [BEq α] [LawfulBEq α] (l r : List α) :
    l.isPrefixOf (l ++ r) = true := by
  simp [List.isPrefixOf_iff_prefix]

theorem isPrefixOf_head_mem {α : Type} [BEq α] [LawfulBEq α] {p : List α} {b : α}
    {t : List α} (h : p.isPrefixOf (b :: t) = true) (hp : p ≠ []) : b ∈ p := by
  match p with
  | [] => exact absurd rfl hp
  | q :: qs =>
    simp only [List.isPrefixOf, Bool.and_eq_true, beq_iff_eq] at h
    exact h.1 ▸ List.mem_cons_self q qs

/-! ## C7: gitignore matcher boundary cases -/

/-- C7: the ignore-pattern matcher boundary cases: pattern `build`
matches `build` and `build/output.bin` but not `build2/file`;
pattern `*.log` matches `debug.log` but not `debug.log.bak`; pattern
`node_modules/` matches the path `node_modules` itself and every path
beginning with `node_modules/`. -/
theorem claim_C7_match_boundaries :
    matchPattern "build".toList "build".toList = true ∧
    matchPattern "build".toList "build/output.bin".toList = true ∧
    matchPattern "build".toList "build2/file".toList = false ∧
    matchPattern "*.log".toList "debug.log".toList = true ∧
    matchPattern "*.log".toList "debug.log.bak".toList = false ∧
    matchPattern "node_modules/".toList "node_modules".toList = true ∧
    ∀ rest : List Char,
      matchPattern "node_modules/".toList ("node_modules/".toList ++ rest) = true := by
  refine ⟨by decide, by decide, by decide, by decide, by decide, by decide, ?_⟩
  intro rest
  have e : "node_modules".toList ++ ['/'] = "node_modules/".toList := by decide
  have d : ("node_modules/".toList).dropLast = "node_modules".toList := by decide
  simp only [matchPattern]
  rw [if_pos (by decide)]
  simp only [d, e, isPrefixOf_append_self, Bool.true_or]

/-! ## C8: text/binary classification -/

/-- C8: `isValidText` classifies a byte sequence as text iff it is valid
UTF-8, contains no NUL byte, and — when non-empty — at least 95% of its
bytes are printable ASCII or tab/newline/carriage-return; in particular
the empty sequence is text, any content with a NUL byte is binary, and
non-empty content below 95% printable density is binary. -/
theorem claim_C8_isValidText_characterisation : ∀ content : List Nat,
    (isValidText content = true ↔
      utf8Valid content = true ∧ ¬(0 ∈ content) ∧
        (content = [] ∨ 95 * content.length ≤ 100 * printableCount content)) ∧
    isValidText [] = true ∧
    (0 ∈ content → isValidText content = false) ∧
    (content ≠ [] → 100 * printableCount content < 95 * content.length →
      isValidText content = false) := by
  intro content
  have hchar : isValidText content = true ↔
      utf8Valid content = true ∧ ¬(0 ∈ content) ∧
        (content = [] ∨ 95 * content.length ≤ 100 * printableCount content) := by
    by_cases hu : utf8Valid content = true
    · by_cases hm : 0 ∈ content
      · have hval : isValidText content = false := by
          simp [isValidText, List.contains, List.elem_eq_mem, hu, hm]
        rw [hval]
        simp [hm]
      · by_cases hd : 0 < content.length ∧
            100 * printableCount content < 95 * content.length
        · have hval : isValidText content = false := by
            simp [isValidText, List.contains, List.elem_eq_mem, hu, hm, hd]
          rw [hval]
          constructor
          · intro h
            simp at h
          · rintro ⟨-, -, hor⟩
            exfalso
            rcases hor with hnil | hle
            · rw [hnil] at hd
              simp at hd
            · omega
        · have hval : isValidText content = true := by
            simp [isValidText, List.contains, List.elem_eq_mem, hu, hm, hd]
          rw [hval]
          simp only [true_iff]
          refine ⟨hu, hm, ?_⟩
          by_cases hnil : content = []
          · exact Or.inl hnil
          · refine Or.inr ?_
            have hpos : 0 < content.length := List.length_pos.mpr hnil
            omega
    · have hu' : utf8Valid content = false := by
        rcases h : utf8Valid content with _ | _
        · rfl
        · exact absurd h hu
      have hval : isValidText content = false := by
        simp [isValidText, hu']
      rw [hval]
      constructor
      · intro h
        simp at h
      · rintro ⟨h1, -⟩
        exact absurd h1 hu
  refine ⟨hchar, by decide, ?_, ?_⟩
  · intro hm
    rcases h : isValidText content with _ | _
    · rfl
    · exact absurd (hchar.mp h).2.1 (not_not_intro hm)
  · intro hnil hd
    rcases h : isValidText content with _ | _
    · rfl
    · rcases (hchar.mp h).2.2 with h1 | h2
      · exact absurd h1 hnil
      · omega

/-- C8 witness: the characterisation instantiated at concrete contents
(a small JSON-like text, a NUL-containing sequence, and a low-density
sequence). -/
theorem claim_C8_witness :
    isValidText [104, 105, 10] = true ∧
    isValidText [72, 0, 73] = false ∧
    isValidText [1, 2, 3, 4, 5, 104, 105] = false := by
  refine ⟨?_, ?_, ?_⟩
  · exact (claim_C8_isValidText_characterisation [104, 105, 10]).1.mpr
      ⟨by decide, by decide, by decide⟩
  · exact (claim_C8_isValidText_characterisation [72, 0, 73]).2.2.1 (by decide)
  · exact (claim_C8_isValidText_characterisation [1, 2, 3, 4, 5, 104, 105]).2.2.2
      (by decide) (by decide)

/-! ## C9: empty pattern set means no rewriting -/

theorem trim_keeps_hash {line : List Char}
    (h : (['#']).isPrefixOf line = true) :
    (['#']).isPrefixOf (trimSpace line) = true := by
  match line with
  | [] => simp [List.isPrefixOf] at h
  | c :: t =>
    simp only [List.isPrefixOf, Bool.and_eq_true, beq_iff_eq] at h
    obtain ⟨hc, -⟩ := h
    subst hc
    have h1 : List.dropWhile isSpaceChar ('#' :: t) = '#' :: t := by
      simp [List.dropWhile, isSpaceChar]
    simp only [trimSpace, h1, List.reverse_cons]
    rw [List.dropWhile_append]
    split
    · simp [List.dropWhile, isSpaceChar, List.isPrefixOf]
    · simp [List.isPrefixOf]

/-- C9: if the source has no .gitignore, or its .gitignore holds only
blank lines and `#` comment lines, the parsed pattern set is empty,
`Match` rejects every relative path, and the rewrite pass leaves every
file unmodified (and unwritten). -/
theorem claim_C9_empty_patterns_no_rewrite :
    ∀ file : Option (List (List Char)),
    (file = none ∨ ∃ lines, file = some lines ∧
      ∀ line ∈ lines, trimSpace line = [] ∨ (['#']).isPrefixOf line = true) →
    (parseGitignore file).patterns = [] ∧
    (∀ relPath, (parseGitignore file).Match relPath = false) ∧
    ∀ srcDirBytes dstDirBytes relPath content,
      WorkerPool.processFile (parseGitignore file) srcDirBytes dstDirBytes
        relPath content = ⟨content, false⟩ := by
  intro file hfile
  have hpat : (parseGitignore file).patterns = [] := by
    rcases hfile with hnone | ⟨lines, hsome, hlines⟩
    · rw [hnone]
      rfl
    · rw [hsome]
      simp only [parseGitignore]
      rw [List.filter_eq_nil_iff]
      intro a ha
      rcases List.mem_map.mp ha with ⟨line, hline, rfl⟩
      rcases hlines line hline with hblank | hhash
      · simp [hblank]
      · simp [trim_keeps_hash hhash]
  have hmatch : ∀ relPath, (parseGitignore file).Match relPath = false := by
    intro relPath
    simp [GitIgnore.Match, hpat]
  refine ⟨hpat, hmatch, ?_⟩
  intro s d rp content
  simp [WorkerPool.processFile, hmatch rp]

/-- C9 witness: a .gitignore made of one comment line and one blank line
yields no patterns, no match for `venv/pyvenv.cfg`, and an untouched
file. -/
theorem claim_C9_witness :
    (parseGitignore (some ["# comment".toList, "   ".toList])).patterns = [] ∧
    (parseGitignore (some ["# comment".toList, "   ".toList])).Match
      "venv/pyvenv.cfg".toList = false ∧
    WorkerPool.processFile (parseGitignore (some ["# comment".toList, "   ".toList]))
      [47, 115] [47, 100] "venv/pyvenv.cfg".toList [47, 115, 104]
      = ⟨[47, 115, 104], false⟩ := by
  have h := claim_C9_empty_patterns_no_rewrite
    (some ["# comment".toList, "   ".toList])
    (Or.inr ⟨["# comment".toList, "   ".toList], rfl, by decide⟩)
  exact ⟨h.1, h.2.1 _, h.2.2 _ _ _ _⟩

/-! ## C5: worker removal floor -/

theorem one_le_minWorkers (numCPU : Nat) : 1 ≤ minWorkers numCPU :=
  Nat.le_max_right _ _

theorem runOps_floor (numCPU : Nat) : ∀ (ops : List PoolOp) (ws : List Nat),
    minWorkers numCPU ≤ ws.length →
    minWorkers numCPU ≤ (runOps numCPU ops ws).length := by
  intro ops
  induction ops with
  | nil => exact fun ws h => h
  | cons op rest ih =>
    intro ws h
    cases op with
    | addW id =>
      refine ih _ ?_
      simp only [CoWPool.AddWorker, List.length_cons]
      omega
    | removeW =>
      refine ih _ ?_
      simp only [runOps, CoWPool.RemoveWorker]
      split
      · exact h
      · rename_i hgt
        push_neg at hgt
        match ws with
        | [] => simp at hgt
        | w :: ws2 =>
          simp only [List.length_cons] at hgt ⊢
          omega

/-- C5: `RemoveWorker` — in all three pool implementations — returns
`false` and leaves the worker set unchanged whenever the active count is
at or below `max(processingUnits/2, 1)`; consequently a started pool,
under any sequence of add/remove calls, never drops below that floor. -/
theorem claim_C5_remove_worker_floor : ∀ numCPU : Nat, 1 ≤ numCPU →
    (∀ ws : List Nat, ws.length ≤ minWorkers numCPU →
      CoWPool.RemoveWorker numCPU ws = (false, ws) ∧
      AtomicClonePool.RemoveWorker numCPU ws = (false, ws) ∧
      WorkerPool.RemoveWorker numCPU ws = (false, ws)) ∧
    ∀ ops : List PoolOp,
      minWorkers numCPU ≤ (runOps numCPU ops (startWorkers numCPU)).length := by
  intro n hn
  constructor
  · intro ws hle
    refine ⟨?_, ?_, ?_⟩ <;>
      simp [CoWPool.RemoveWorker, AtomicClonePool.RemoveWorker,
        WorkerPool.RemoveWorker, hle]
  · intro ops
    refine runOps_floor n ops _ ?_
    simp only [startWorkers, List.length_range, minWorkers]
    exact Nat.max_le.mpr ⟨Nat.div_le_self _ _, hn⟩

/-- C5 witness: with 4 processing units the floor is 2 — a pool of two
workers refuses removal, and three removals from a started pool of four
leave at least the floor. -/
theorem claim_C5_witness :
    CoWPool.RemoveWorker 4 [1, 2] = (false, [1, 2]) ∧
    minWorkers 4 ≤
      (runOps 4 [PoolOp.removeW, PoolOp.removeW, PoolOp.removeW]
        (startWorkers 4)).length := by
  have h := claim_C5_remove_worker_floor 4 (by norm_num)
  exact ⟨(h.1 [1, 2] (by decide)).1, h.2 _⟩

/-! ## C3: entry dispositions in the parallel file-level clone -/

/-- C3: in the parallel file-level clone fallback every entry type has
the defined disposition: a directory is created with `os.MkdirAll`
(whose contract is idempotent on an existing directory); a regular file
is first attempted with the clone call and on clone failure is
byte-copied with its mode bits; a symlink is recreated via readlink and
symlink and is never cloned or byte-copied; any other entry type is
counted as skipped, is neither cloned nor copied nor symlinked, and
returns no error. -/
theorem claim_C3_entry_dispositions : ∀ (env : CoWEnv) (task : CoWTask),
    (task.info.kind = EntryKind.dir →
      (CoWPool.processCoWTask env task).actions
        = [FsAction.mkdirAll task.dstPath task.info.perm] ∧
      (env.mkdirOk = true → (CoWPool.processCoWTask env task).err = none)) ∧
    (task.info.kind = EntryKind.regular → env.mkdirOk = true →
      FsAction.clonefile task.srcPath task.dstPath
        ∈ (CoWPool.processCoWTask env task).actions ∧
      (env.cloneOk = false →
        FsAction.copyFile task.srcPath task.dstPath task.info.perm
          ∈ (CoWPool.processCoWTask env task).actions) ∧
      (env.cloneOk = true →
        ∀ s d m, FsAction.copyFile s d m ∉ (CoWPool.processCoWTask env task).actions)) ∧
    (task.info.kind = EntryKind.symlink →
      (∀ s d, FsAction.clonefile s d ∉ (CoWPool.processCoWTask env task).actions) ∧
      (∀ s d m, FsAction.copyFile s d m ∉ (CoWPool.processCoWTask env task).actions) ∧
      (env.mkdirOk = true →
        FsAction.readlink task.srcPath ∈ (CoWPool.processCoWTask env task).actions ∧
        ∀ t, env.readlinkResult = some t →
          FsAction.symlink t task.dstPath ∈ (CoWPool.processCoWTask env task).actions)) ∧
    (task.info.kind = EntryKind.other →
      (∀ s d, FsAction.clonefile s d ∉ (CoWPool.processCoWTask env task).actions) ∧
      (∀ s d m, FsAction.copyFile s d m ∉ (CoWPool.processCoWTask env task).actions) ∧
      (∀ t d, FsAction.symlink t d ∉ (CoWPool.processCoWTask env task).actions) ∧
      (env.mkdirOk = true →
        (CoWPool.processCoWTask env task).skippedFiles = 1 ∧
        (CoWPool.processCoWTask env task).err = none)) := by
  intro env task
  obtain ⟨mk, cl, cp, rl, sy⟩ := env
  refine ⟨?_, ?_, ?_, ?_⟩ <;> intro hk
  · cases mk <;> simp [CoWPool.processCoWTask, hk]
  · intro hmk
    subst hmk
    cases cl <;> cases cp <;>
      simp [CoWPool.processCoWTask, hk]
  · cases mk <;> rcases rl with _ | t0 <;> cases sy <;>
      simp [CoWPool.processCoWTask, hk]
  · cases mk <;> simp [CoWPool.processCoWTask, hk]

/-- C3 witness: a regular file whose clone call fails is byte-copied
with its mode bits; an `other` entry is skipped without error. -/
theorem claim_C3_witness :
    (FsAction.clonefile "src/f" "dst/f"
      ∈ (CoWPool.processCoWTask ⟨true, false, true, none, true⟩
          ⟨"src/f", "dst/f", ⟨EntryKind.regular, 420⟩⟩).actions ∧
     FsAction.copyFile "src/f" "dst/f" 420
      ∈ (CoWPool.processCoWTask ⟨true, false, true, none, true⟩
          ⟨"src/f", "dst/f", ⟨EntryKind.regular, 420⟩⟩).actions) ∧
    (CoWPool.processCoWTask ⟨true, true, true, none, true⟩
        ⟨"src/s", "dst/s", ⟨EntryKind.other, 420⟩⟩).skippedFiles = 1 ∧
    (CoWPool.processCoWTask ⟨true, true, true, none, true⟩
        ⟨"src/s", "dst/s", ⟨EntryKind.other, 420⟩⟩).err = none := by
  have h1 := (claim_C3_entry_dispositions ⟨true, false, true, none, true⟩
    ⟨"src/f", "dst/f", ⟨EntryKind.regular, 420⟩⟩).2.1 rfl rfl
  have h2 := (claim_C3_entry_dispositions ⟨true, true, true, none, true⟩
    ⟨"src/s", "dst/s", ⟨EntryKind.other, 420⟩⟩).2.2.2 rfl
  exact ⟨⟨h1.1, h1.2.1 rfl⟩, (h2.2.2.2 rfl).1, (h2.2.2.2 rfl).2⟩

/-! ## C1: cleanup of the destination on registration failure -/

/-- C1: when the clone itself succeeded but a worktree registration step
fails — branch creation, the symbolic-ref HEAD repoint, or any step of
forging the administrative files — `setupWorktreeWithCoW` removes the
destination directory entirely (the last filesystem action before
returning is the `os.RemoveAll` of the destination) and returns the
error, leaving no half-registered worktree at the destination path. -/
theorem claim_C1_registration_failure_cleanup :
    ∀ env : WtEnv, env.cloneOk = true →
    ∀ e, (Worktree.setupWorktreeWithCoW env).result = Except.error e →
    (Worktree.setupWorktreeWithCoW env).destExists = false ∧
    (Worktree.setupWorktreeWithCoW env).actions.getLast?
      = some WAction.removeAllDest := by
  intro env hclone e herr
  cases hb : env.branchOk with
  | false =>
    refine ⟨?_, ?_⟩ <;> simp [Worktree.setupWorktreeWithCoW, hclone, hb]
  | true =>
    cases hs : env.symrefOk with
    | false =>
      refine ⟨?_, ?_⟩ <;> simp [Worktree.setupWorktreeWithCoW, hclone, hb, hs]
    | true =>
      cases hr : Worktree.registerWorktreeManually env with
      | error msg =>
        refine ⟨?_, ?_⟩ <;> simp [Worktree.setupWorktreeWithCoW, hclone, hb, hs, hr]
      | ok u =>
        exfalso
        have hok : (Worktree.setupWorktreeWithCoW env).result = Except.ok () := by
          simp [Worktree.setupWorktreeWithCoW, hclone, hb, hs, hr]
        rw [hok] at herr
        exact Except.noConfusion herr

/-- C1 witness: with a successful clone and a failing branch creation,
the destination is gone and the last action is the destination
`RemoveAll`. -/
theorem claim_C1_witness :
    (Worktree.setupWorktreeWithCoW
      { revParse := Except.ok "c0ffee".toList, cloneOk := true,
        branchOk := false, symrefOk := true, mkdirMetaOk := true,
        writeHeadOk := true, writeCommondirOk := true, writeGitdirOk := true,
        removeGitDirOk := true, writeGitFileOk := true,
        fallbackOk := true }).destExists = false ∧
    (Worktree.setupWorktreeWithCoW
      { revParse := Except.ok "c0ffee".toList, cloneOk := true,
        branchOk := false, symrefOk := true, mkdirMetaOk := true,
        writeHeadOk := true, writeCommondirOk := true, writeGitdirOk := true,
        removeGitDirOk := true, writeGitFileOk := true,
        fallbackOk := true }).actions.getLast? = some WAction.removeAllDest :=
  claim_C1_registration_failure_cleanup _ rfl
    "failed to create branch".toList rfl

/-! ## C10: brand-new repository detection -/

/-- C10: if `git rev-parse HEAD` fails with an error whose text contains
one of the no-valid-HEAD patterns (a repository with no commits),
`CreateCoWWorktree` returns the descriptive create-an-initial-commit
error and performs no clone, no branch creation and no fallback worktree
creation. -/
theorem claim_C10_new_repo_error :
    ∀ (env : WtEnv) (e : List Char), env.revParse = Except.error e →
    (strContains e Worktree.headPattern1 = true ∨
      strContains e Worktree.headPattern2 = true ∨
      strContains e Worktree.headPattern3 = true) →
    (Worktree.CreateCoWWorktree env).2 = Except.error Worktree.newRepoMsg ∧
    (Worktree.CreateCoWWorktree env).1
      = [WAction.gitWorktreeRemove, WAction.gitRevParseHEAD] ∧
    WAction.cloneDirectory ∉ (Worktree.CreateCoWWorktree env).1 ∧
    WAction.gitBranch ∉ (Worktree.CreateCoWWorktree env).1 ∧
    WAction.gitWorktreeAddFallback ∉ (Worktree.CreateCoWWorktree env).1 := by
  intro env e hrev hpat
  have hcond : (strContains e Worktree.headPattern1
      || strContains e Worktree.headPattern2
      || strContains e Worktree.headPattern3) = true := by
    rcases hpat with h | h | h <;> simp [h]
  refine ⟨?_, ?_, ?_, ?_, ?_⟩ <;>
    simp [Worktree.CreateCoWWorktree, hrev, hcond]

/-- C10 witness: the second pattern (`fatal: not a valid object name`)
triggers the brand-new-repository error with no further actions. -/
theorem claim_C10_witness :
    (Worktree.CreateCoWWorktree
      { revParse := Except.error "fatal: not a valid object name".toList,
        cloneOk := true, branchOk := true, symrefOk := true,
        mkdirMetaOk := true, writeHeadOk := true, writeCommondirOk := true,
        writeGitdirOk := true, removeGitDirOk := true, writeGitFileOk := true,
        fallbackOk := true }).2 = Except.error Worktree.newRepoMsg ∧
    WAction.cloneDirectory ∉ (Worktree.CreateCoWWorktree
      { revParse := Except.error "fatal: not a valid object name".toList,
        cloneOk := true, branchOk := true, symrefOk := true,
        mkdirMetaOk := true, writeHeadOk := true, writeCommondirOk := true,
        writeGitdirOk := true, removeGitDirOk := true, writeGitFileOk := true,
        fallbackOk := true }).1 := by
  have h := claim_C10_new_repo_error
    { revParse := Except.error "fatal: not a valid object name".toList,
      cloneOk := true, branchOk := true, symrefOk := true,
      mkdirMetaOk := true, writeHeadOk := true, writeCommondirOk := true,
      writeGitdirOk := true, removeGitDirOk := true, writeGitFileOk := true,
      fallbackOk := true }
    "fatal: not a valid object name".toList
    rfl (Or.inr (Or.inl (by decide)))
  exact ⟨h.1, h.2.2.1⟩

/-! ## C6: the scaling tick -/

theorem cowAdjust_spec (numCPU : Nat) (sinceLast : ℚ) (queue workers : Nat)
    (rate : ℚ) :
    (CoWPoolController.adjustWorkers numCPU sinceLast queue workers rate
        = Adjust.addOne ↔
      ¬sinceLast < 1 ∧ workers * 10 < queue ∧ workers < numCPU * 2 ∧ 0 < rate) ∧
    (CoWPoolController.adjustWorkers numCPU sinceLast queue workers rate
        = Adjust.tryRemove ↔
      ¬sinceLast < 1 ∧ ¬(workers * 10 < queue ∧ workers < numCPU * 2 ∧ 0 < rate) ∧
        queue = 0 ∧ rate < 5) ∧
    (sinceLast < 1 →
      CoWPoolController.adjustWorkers numCPU sinceLast queue workers rate
        = Adjust.noAdjust) := by
  unfold CoWPoolController.adjustWorkers
  refine ⟨?_, ?_, ?_⟩ <;> split_ifs with h1 h2 h3 <;> simp_all

theorem atomicAdjust_spec (numCPU : Nat) (sinceLast : ℚ) (queue workers : Nat)
    (rate : ℚ) :
    (AtomicCloneController.adjustWorkers numCPU sinceLast queue workers rate
        = Adjust.addOne ↔
      ¬sinceLast < 1 ∧ workers * 5 < queue ∧ workers < numCPU * 2 ∧ 0 < rate) ∧
    (AtomicCloneController.adjustWorkers numCPU sinceLast queue workers rate
        = Adjust.tryRemove ↔
      ¬sinceLast < 1 ∧ ¬(workers * 5 < queue ∧ workers < numCPU * 2 ∧ 0 < rate) ∧
        queue = 0 ∧ rate < 1) ∧
    (sinceLast < 1 →
      AtomicCloneController.adjustWorkers numCPU sinceLast queue workers rate
        = Adjust.noAdjust) := by
  unfold AtomicCloneController.adjustWorkers
  refine ⟨?_, ?_, ?_⟩ <;> split_ifs with h1 h2 h3 <;> simp_all

theorem rewriteAdjust_spec (numCPU : Nat) (sinceLast : ℚ) (queue workers : Nat)
    (rate : ℚ) :
    (PoolController.adjustWorkers numCPU sinceLast queue workers rate
        = Adjust.addOne ↔
      ¬sinceLast < 1 ∧ workers * 5 < queue ∧ workers < numCPU * 4 ∧ 0 < rate) ∧
    (PoolController.adjustWorkers numCPU sinceLast queue workers rate
        = Adjust.tryRemove ↔
      ¬sinceLast < 1 ∧ ¬(workers * 5 < queue ∧ workers < numCPU * 4 ∧ 0 < rate) ∧
        queue = 0 ∧ rate < 1) ∧
    (sinceLast < 1 →
      PoolController.adjustWorkers numCPU sinceLast queue workers rate
        = Adjust.noAdjust) := by
  unfold PoolController.adjustWorkers
  refine ⟨?_, ?_, ?_⟩ <;> split_ifs with h1 h2 h3 <;> simp_all

theorem removeWorker_length (numCPU : Nat) (ws : List Nat) :
    (CoWPool.RemoveWorker numCPU ws).2.length ≤ ws.length ∧
    ws.length ≤ (CoWPool.RemoveWorker numCPU ws).2.length + 1 ∧
    (minWorkers numCPU ≤ ws.length →
      minWorkers numCPU ≤ (CoWPool.RemoveWorker numCPU ws).2.length) := by
  unfold CoWPool.RemoveWorker
  split
  · exact ⟨le_refl _, Nat.le_succ _, fun h => h⟩
  · rename_i hgt
    push_neg at hgt
    match ws with
    | [] => simp at hgt
    | w :: ws2 =>
      simp only [List.length_cons] at hgt
      refine ⟨?_, ?_, fun h => ?_⟩
      · show ws2.length ≤ ws2.length + 1
        omega
      · show ws2.length + 1 ≤ ws2.length + 1
        omega
      · show minWorkers numCPU ≤ ws2.length
        omega

theorem applyAdjust_bounds (numCPU : Nat) (a : Adjust) (ws : List Nat)
    (newId : Nat) :
    (applyAdjust numCPU ws newId a).length ≤ ws.length + 1 ∧
    ws.length ≤ (applyAdjust numCPU ws newId a).length + 1 ∧
    (minWorkers numCPU ≤ ws.length →
      minWorkers numCPU ≤ (applyAdjust numCPU ws newId a).length) := by
  cases a with
  | addOne =>
    refine ⟨?_, ?_, fun h => ?_⟩ <;>
      simp only [applyAdjust, CoWPool.AddWorker, List.length_cons] <;> omega
  | noAdjust =>
    exact ⟨Nat.le_succ _, Nat.le_succ _, fun h => h⟩
  | tryRemove =>
    obtain ⟨h1, h2, h3⟩ := removeWorker_length numCPU ws
    exact ⟨by simpa [applyAdjust] using Nat.le_succ_of_le h1,
      by simpa [applyAdjust] using h2,
      fun h => by simpa [applyAdjust] using h3 h⟩

/-- C6 counterexample (to the claim as stated): a freshly started
path-rewrite pool — queue depth 0, zero completed tasks so measured
throughput 0, worker count `numCPU = 4`, and `lastAdjust` at its zero
value so more than a second has elapsed — does perform an adjustment on
the first tick: the controller decides to remove a worker, and
`RemoveWorker` succeeds because 4 workers exceed the floor of 2. -/
theorem claim_C6_counterexample :
    PoolController.adjustWorkers 4 2 0 4 0 = Adjust.tryRemove ∧
    applyAdjust 4 (startWorkers 4) 5 (PoolController.adjustWorkers 4 2 0 4 0)
      ≠ startWorkers 4 ∧
    (applyAdjust 4 (startWorkers 4) 5
      (PoolController.adjustWorkers 4 2 0 4 0)).length = 3 := by
  have h : PoolController.adjustWorkers 4 2 0 4 0 = Adjust.tryRemove := by
    unfold PoolController.adjustWorkers
    rw [if_neg (by norm_num), if_neg (by norm_num), if_pos (by norm_num)]
  refine ⟨h, ?_, ?_⟩ <;> rw [h] <;> decide

/-- C6 (amended): on each tick at most one adjustment happens; a worker
is added only when the queue exceeds worker count times the pool's
multiplier, the count is under the hard cap and throughput is strictly
positive; a removal is attempted only when the queue is empty and the
throughput is below the pool's low-activity threshold; no adjustment of
either kind happens within one second of the previous adjustment; and a
freshly started pool with an empty queue and zero completed tasks never
adds a worker — it may, however, remove one worker, subject to the
`max(numCPU/2, 1)` floor. -/
theorem claim_C6_amended_scaling_tick :
    ∀ (numCPU : Nat) (sinceLast : ℚ) (queue workers : Nat) (rate : ℚ),
    (CoWPoolController.adjustWorkers numCPU sinceLast queue workers rate
        = Adjust.addOne ↔
      ¬sinceLast < 1 ∧ workers * 10 < queue ∧ workers < numCPU * 2 ∧ 0 < rate) ∧
    (CoWPoolController.adjustWorkers numCPU sinceLast queue workers rate
        = Adjust.tryRemove ↔
      ¬sinceLast < 1 ∧ ¬(workers * 10 < queue ∧ workers < numCPU * 2 ∧ 0 < rate) ∧
        queue = 0 ∧ rate < 5) ∧
    (AtomicCloneController.adjustWorkers numCPU sinceLast queue workers rate
        = Adjust.addOne ↔
      ¬sinceLast < 1 ∧ workers * 5 < queue ∧ workers < numCPU * 2 ∧ 0 < rate) ∧
    (AtomicCloneController.adjustWorkers numCPU sinceLast queue workers rate
        = Adjust.tryRemove ↔
      ¬sinceLast < 1 ∧ ¬(workers * 5 < queue ∧ workers < numCPU * 2 ∧ 0 < rate) ∧
        queue = 0 ∧ rate < 1) ∧
    (PoolController.adjustWorkers numCPU sinceLast queue workers rate
        = Adjust.addOne ↔
      ¬sinceLast < 1 ∧ workers * 5 < queue ∧ workers < numCPU * 4 ∧ 0 < rate) ∧
    (PoolController.adjustWorkers numCPU sinceLast queue workers rate
        = Adjust.tryRemove ↔
      ¬sinceLast < 1 ∧ ¬(workers * 5 < queue ∧ workers < numCPU * 4 ∧ 0 < rate) ∧
        queue = 0 ∧ rate < 1) ∧
    (sinceLast < 1 →
      CoWPoolController.adjustWorkers numCPU sinceLast queue workers rate
          = Adjust.noAdjust ∧
      AtomicCloneController.adjustWorkers numCPU sinceLast queue workers rate
          = Adjust.noAdjust ∧
      PoolController.adjustWorkers numCPU sinceLast queue workers rate
          = Adjust.noAdjust) ∧
    (rate = 0 →
      CoWPoolController.adjustWorkers numCPU sinceLast queue workers rate
          ≠ Adjust.addOne ∧
      AtomicCloneController.adjustWorkers numCPU sinceLast queue workers rate
          ≠ Adjust.addOne ∧
      PoolController.adjustWorkers numCPU sinceLast queue workers rate
          ≠ Adjust.addOne) ∧
    ∀ (a : Adjust) (ws : List Nat) (newId : Nat),
      (applyAdjust numCPU ws newId a).length ≤ ws.length + 1 ∧
      ws.length ≤ (applyAdjust numCPU ws newId a).length + 1 ∧
      (minWorkers numCPU ≤ ws.length →
        minWorkers numCPU ≤ (applyAdjust numCPU ws newId a).length) := by
  intro numCPU sinceLast queue workers rate
  obtain ⟨hc1, hc2, hc3⟩ := cowAdjust_spec numCPU sinceLast queue workers rate
  obtain ⟨ha1, ha2, ha3⟩ := atomicAdjust_spec numCPU sinceLast queue workers rate
  obtain ⟨hr1, hr2, hr3⟩ := rewriteAdjust_spec numCPU sinceLast queue workers rate
  refine ⟨hc1, hc2, ha1, ha2, hr1, hr2,
    fun h => ⟨hc3 h, ha3 h, hr3 h⟩, ?_, applyAdjust_bounds numCPU⟩
  intro hrate
  refine ⟨?_, ?_, ?_⟩
  · intro heq
    have := (hc1.mp heq).2.2.2
    rw [hrate] at this
    exact lt_irrefl 0 this
  · intro heq
    have := (ha1.mp heq).2.2.2
    rw [hrate] at this
    exact lt_irrefl 0 this
  · intro heq
    have := (hr1.mp heq).2.2.2
    rw [hrate] at this
    exact lt_irrefl 0 this

/-- C6 witness: a backlogged CoW pool (queue 100, 4 workers, 4 CPUs,
positive throughput, eligible tick) adds exactly one worker. -/
theorem claim_C6_witness :
    CoWPoolController.adjustWorkers 4 2 100 4 3 = Adjust.addOne ∧
    PoolController.adjustWorkers 4 (1 / 2) 100 4 3 = Adjust.noAdjust := by
  constructor
  · exact (claim_C6_amended_scaling_tick 4 2 100 4 3).1.mpr
      (by norm_num)
  · exact ((claim_C6_amended_scaling_tick 4 (1 / 2) 100 4 3).2.2.2.2.2.2.1
      (by norm_num)).2.2

/-! ## C4: depth-limited directory enumeration -/

mutual

theorem allDirPaths_length_le (rp : List String) (e : Entry) :
    ∀ q ∈ allDirPaths rp e, rp.length ≤ q.length := by
  match e with
  | Entry.file s => intro q hq; simp [allDirPaths] at hq
  | Entry.dir s children =>
    intro q hq
    simp only [allDirPaths, List.mem_cons] at hq
    rcases hq with rfl | hq
    · exact le_refl _
    · exact le_of_lt (allDirPathsList_length_lt rp children q hq)

theorem allDirPathsList_length_lt (rp : List String) (es : List Entry) :
    ∀ q ∈ allDirPathsList rp es, rp.length < q.length := by
  match es with
  | [] => intro q hq; simp [allDirPathsList] at hq
  | e :: rest =>
    intro q hq
    simp only [allDirPathsList, List.mem_append] at hq
    rcases hq with hq | hq
    · have h := allDirPaths_length_le (rp ++ [e.name]) e q hq
      simp only [List.length_append, List.length_singleton] at h
      omega
    · exact allDirPathsList_length_lt rp rest q hq

end

mutual

theorem walkFind_spec (n : Nat) (hn : 1 ≤ n) (rp : List String) (e : Entry)
    (hrp : rp.length ≤ n) :
    (walkFind n rp e).2
      = (allDirPaths rp e).filter (fun q => q.length = n) ∧
    ∀ q ∈ (walkFind n rp e).1, q.length ≤ n := by
  match e with
  | Entry.file s =>
    constructor
    · simp [walkFind, allDirPaths]
    · intro q hq
      simp [walkFind] at hq
  | Entry.dir s children =>
    by_cases hroot : rp = []
    · subst hroot
      have hsub := walkFindList_spec n hn [] children (by simpa using hn)
      simp only [walkFind, if_pos rfl]
      constructor
      · have hne : ¬(([] : List String).length = n) := by
          simp only [List.length_nil]
          omega
        simp only [allDirPaths, List.filter_cons, hne, decide_eq_true_eq,
          if_false, decide_False]
        · exact hsub.1
      · intro q hq
        rcases List.mem_cons.mp hq with rfl | hq
        · simp
        · exact hsub.2 q hq
    · by_cases heq : rp.length = n
      · simp only [walkFind, if_neg hroot, if_pos heq]
        constructor
        · have hnil : (allDirPathsList rp children).filter
              (fun q => q.length = n) = [] := by
            rw [List.filter_eq_nil_iff]
            intro q hq
            have := allDirPathsList_length_lt rp children q hq
            simp only [decide_eq_true_eq]
            omega
          simp only [allDirPaths, List.filter_cons, heq, decide_True, if_true,
            hnil]
        · intro q hq
          rcases List.mem_singleton.mp hq with rfl
          omega
      · have hlt : rp.length < n := lt_of_le_of_ne hrp heq
        have hngt : ¬(n < rp.length) := by omega
        have hsub := walkFindList_spec n hn rp children hlt
        simp only [walkFind, if_neg hroot, if_neg heq, if_neg hngt]
        constructor
        · simp only [allDirPaths, List.filter_cons, heq, decide_eq_true_eq,
            if_false, decide_False]
          · exact hsub.1
        · intro q hq
          rcases List.mem_cons.mp hq with rfl | hq
          · exact hrp
          · exact hsub.2 q hq

theorem walkFindList_spec (n : Nat) (hn : 1 ≤ n) (rp : List String)
    (es : List Entry) (hrp : rp.length < n) :
    (walkFindList n rp es).2
      = (allDirPathsList rp es).filter (fun q => q.length = n) ∧
    ∀ q ∈ (walkFindList n rp es).1, q.length ≤ n := by
  match es with
  | [] =>
    constructor
    · simp [walkFindList, allDirPathsList]
    · intro q hq
      simp [walkFindList] at hq
  | e :: rest =>
    have h1 := walkFind_spec n hn (rp ++ [e.name]) e
      (by simp only [List.length_append, List.length_singleton]; omega)
    have h2 := walkFindList_spec n hn rp rest hrp
    constructor
    · simp only [walkFindList, allDirPathsList, List.filter_append]
      rw [h1.1, h2.1]
    · intro q hq
      rcases List.mem_append.mp hq with hq | hq
      · exact h1.2 q hq
      · exact h2.2 q hq

end

/-- C4: for every source tree and every target depth `n ≥ 1`, the
depth-limited enumeration returns exactly the directories whose relative
path has depth `n` — in pre-order, equal to the depth-`n` filtering of
the full directory enumeration; every returned target has depth exactly
`n`, and a directory deeper than `n` is never even visited by the walk
(`SkipDir` semantics at depth `n`). -/
theorem claim_C4_depth_enumeration :
    ∀ (t : Entry) (n : Nat), 1 ≤ n →
    (walkFind n [] t).2
      = (allDirPaths [] t).filter (fun q => q.length = n) ∧
    (∀ q ∈ (walkFind n [] t).2, q.length = n) ∧
    ∀ q ∈ (walkFind n [] t).1, q.length ≤ n := by
  intro t n hn
  obtain ⟨h1, h2⟩ := walkFind_spec n hn [] t (by simp)
  refine ⟨h1, ?_, h2⟩
  intro q hq
  rw [h1] at hq
  have := (List.mem_filter.mp hq).2
  simpa using this

/-- C4 witness: in a four-level synthetic tree, the targets found at
depth 2 are exactly the depth-2 directories — `a/b` but neither `a`
(depth 1) nor `a/b/c` (depth 3) — and no visited directory is deeper
than 2. -/
theorem claim_C4_witness :
    (walkFind 2 []
      (Entry.dir "root"
        [Entry.dir "a" [Entry.dir "b" [Entry.dir "c" []]],
         Entry.file "f", Entry.dir "d" []])).2
      = (allDirPaths []
          (Entry.dir "root"
            [Entry.dir "a" [Entry.dir "b" [Entry.dir "c" []]],
             Entry.file "f", Entry.dir "d" []])).filter
          (fun q => q.length = 2) ∧
    (walkFind 2 []
      (Entry.dir "root"
        [Entry.dir "a" [Entry.dir "b" [Entry.dir "c" []]],
         Entry.file "f", Entry.dir "d" []])).2 = [["a", "b"]] := by
  have h := claim_C4_depth_enumeration
    (Entry.dir "root"
      [Entry.dir "a" [Entry.dir "b" [Entry.dir "c" []]],
       Entry.file "f", Entry.dir "d" []]) 2 (by norm_num)
  refine ⟨h.1, ?_⟩
  rw [h.1]
  simp [allDirPaths, allDirPathsList, Entry.name]

/-! ## C2: the rewrite pass and occurrence counting -/

theorem occ_short {p : List Nat} :
    ∀ {s : List Nat}, s.length < p.length → occ p s = 0 := by
  intro s
  induction s with
  | nil => intro _; rfl
  | cons b t ih =>
    intro h
    simp only [List.length_cons] at h
    have hpre : ¬(p.isPrefixOf (b :: t) = true) := by
      intro hp
      have hle := (List.isPrefixOf_iff_prefix.mp hp).length_le
      simp only [List.length_cons] at hle
      omega
    simp only [occ, if_neg hpre, Nat.zero_add]
    exact ih (by omega)

theorem occ_append_sep {p : List Nat} (hp : p ≠ []) (y : List Nat) :
    ∀ x : List Nat, (∀ b ∈ x, b ∉ p) → occ p (x ++ y) = occ p y := by
  intro x
  induction x with
  | nil => intro _; rfl
  | cons b t ih =>
    intro hx
    have hb : b ∉ p := hx b (List.mem_cons_self _ _)
    have hpre : ¬(p.isPrefixOf (b :: (t ++ y)) = true) := fun hpp =>
      hb (isPrefixOf_head_mem hpp hp)
    calc occ p ((b :: t) ++ y)
        = (if p.isPrefixOf (b :: (t ++ y)) = true then 1 else 0)
            + occ p (t ++ y) := rfl
      _ = occ p (t ++ y) := by rw [if_neg hpre, Nat.zero_add]
      _ = occ p y := ih fun c hc => hx c (List.mem_cons_of_mem _ hc)

theorem isPrefixOf_append_cons {c : Nat} (ys : List Nat) :
    ∀ (x p : List Nat), c ∉ p →
      (p.isPrefixOf (x ++ c :: ys)) = (p.isPrefixOf x) := by
  intro x
  induction x with
  | nil =>
    intro p hc
    match p with
    | [] => rfl
    | q :: qs =>
      have hqc : (q == c) = false := by
        refine beq_eq_false_iff_ne.mpr fun h => ?_
        exact hc (h ▸ List.mem_cons_self q qs)
      simp [List.isPrefixOf, hqc]
  | cons a x' ih =>
    intro p hc
    match p with
    | [] => rfl
    | q :: qs =>
      have h2 := ih qs fun h => hc (List.mem_cons_of_mem _ h)
      show (q == a && qs.isPrefixOf (x' ++ c :: ys))
          = (q == a && qs.isPrefixOf x')
      rw [h2]

theorem occ_append_cons {p : List Nat} (_hp : p ≠ []) {c : Nat} (hc : c ∉ p)
    (ys : List Nat) : ∀ x, occ p (x ++ c :: ys) = occ p x + occ p (c :: ys) := by
  intro x
  induction x with
  | nil => simp [occ]
  | cons b x' ih =>
    have hsw := isPrefixOf_append_cons ys (b :: x') p hc
    calc occ p ((b :: x') ++ c :: ys)
        = (if p.isPrefixOf ((b :: x') ++ c :: ys) = true then 1 else 0)
            + occ p (x' ++ c :: ys) := rfl
      _ = (if p.isPrefixOf (b :: x') = true then 1 else 0)
            + (occ p x' + occ p (c :: ys)) := by rw [hsw, ih]
      _ = occ p (b :: x') + occ p (c :: ys) := by
            show _ = (if p.isPrefixOf (b :: x') = true then 1 else 0)
              + occ p x' + occ p (c :: ys)
            omega

theorem occ_self {p : List Nat} (hp : p ≠ []) : occ p p = 1 := by
  match p, hp with
  | q :: qs, _ =>
    have hpre : (q :: qs).isPrefixOf (q :: qs) = true := by
      simp [List.isPrefixOf_iff_prefix]
    simp only [occ, if_pos hpre]
    rw [occ_short (by simp)]

theorem occ_joinWith {p sep : List Nat} (hp : p ≠ []) :
    ∀ chunks : List (List Nat),
      (∀ c ∈ chunks, c ≠ [] ∧ ∀ b ∈ c, b ∉ p) →
      occ p (joinWith sep chunks) = (chunks.length - 1) * occ p sep := by
  intro chunks
  induction chunks with
  | nil => intro _; simp [joinWith, occ]
  | cons c cs ih =>
    intro hch
    have hc := hch c (List.mem_cons_self _ _)
    match cs with
    | [] =>
      show occ p c = ((1 : Nat) - 1) * occ p sep
      calc occ p c = occ p (c ++ []) := by rw [List.append_nil]
        _ = occ p [] := occ_append_sep hp [] c hc.2
        _ = ((1 : Nat) - 1) * occ p sep := by simp [occ]
    | c' :: cs' =>
      have hc' := hch c' (List.mem_cons_of_mem _ (List.mem_cons_self _ _))
      have hrest : ∀ d ∈ c' :: cs', d ≠ [] ∧ ∀ b ∈ d, b ∉ p :=
        fun d hd => hch d (List.mem_cons_of_mem _ hd)
      obtain ⟨d, ct, hd⟩ : ∃ d ct, c' = d :: ct := by
        match c', hc'.1 with
        | d :: ct, _ => exact ⟨d, ct, rfl⟩
      have hdng : d ∉ p := hc'.2 d (by rw [hd]; exact List.mem_cons_self _ _)
      obtain ⟨R, hR⟩ : ∃ R, joinWith sep (c' :: cs') = c' ++ R := by
        match cs' with
        | [] => exact ⟨[], by simp [joinWith]⟩
        | e :: es => exact ⟨sep ++ joinWith sep (e :: es),
            by simp [joinWith, List.append_assoc]⟩
      have hjw : joinWith sep (c :: c' :: cs')
          = c ++ (sep ++ joinWith sep (c' :: cs')) := by
        simp [joinWith, List.append_assoc]
      rw [hjw, occ_append_sep hp _ c hc.2]
      have hJcons : joinWith sep (c' :: cs') = d :: (ct ++ R) := by
        rw [hR, hd]
        rfl
      rw [hJcons, occ_append_cons hp hdng (ct ++ R) sep, ← hJcons, ih hrest]
      simp only [List.length_cons]
      rw [Nat.succ_sub_one, Nat.succ_sub_one, Nat.succ_mul]
      omega

theorem replaceAll_cons_nomatch {old new : List Nat} {b : Nat} {rest : List Nat}
    (h : ¬(old ≠ [] ∧ old.isPrefixOf (b :: rest) = true)) :
    replaceAll old new (b :: rest) = b :: replaceAll old new rest := by
  simp only [replaceAll]
  rw [if_neg h]

theorem replaceAll_append_left {src dst : List Nat} (hs : src ≠ []) :
    ∀ c : List Nat, (∀ b ∈ c, b ∉ src) →
      ∀ t, replaceAll src dst (c ++ t) = c ++ replaceAll src dst t := by
  intro c
  induction c with
  | nil => intro _ t; rfl
  | cons b c' ih =>
    intro hc t
    have hb : b ∉ src := hc b (List.mem_cons_self _ _)
    have hno : ¬(src ≠ [] ∧ src.isPrefixOf (b :: (c' ++ t)) = true) := by
      rintro ⟨-, h2⟩
      exact hb (isPrefixOf_head_mem h2 hs)
    simp only [List.cons_append]
    rw [replaceAll_cons_nomatch hno, ih (fun x hx => hc x (List.mem_cons_of_mem _ hx)) t]

theorem replaceAll_head_match {src dst : List Nat} (hs : src ≠ []) (t : List Nat) :
    replaceAll src dst (src ++ t) = dst ++ replaceAll src dst t := by
  match src, hs with
  | q :: qs, _ =>
    have hpre : (q :: qs).isPrefixOf (q :: (qs ++ t)) = true :=
      isPrefixOf_append_self (q :: qs) t
    show replaceAll (q :: qs) dst (q :: (qs ++ t)) = _
    simp only [replaceAll]
    rw [if_pos ⟨by simp, hpre⟩]
    congr 1
    have hlen : (q :: qs : List Nat).length - 1 = qs.length := by simp
    rw [hlen, List.drop_left]

theorem replaceAll_joinWith {src dst : List Nat} (hs : src ≠ []) :
    ∀ chunks : List (List Nat), (∀ c ∈ chunks, ∀ b ∈ c, b ∉ src) →
      replaceAll src dst (joinWith src chunks) = joinWith dst chunks := by
  intro chunks
  induction chunks with
  | nil => intro _; simp [joinWith, replaceAll]
  | cons c cs ih =>
    intro hch
    have hc := hch c (List.mem_cons_self _ _)
    match cs with
    | [] =>
      show replaceAll src dst c = c
      calc replaceAll src dst c
          = replaceAll src dst (c ++ []) := by rw [List.append_nil]
        _ = c ++ replaceAll src dst [] := replaceAll_append_left hs c hc []
        _ = c := by simp [replaceAll]
    | c' :: cs' =>
      have hrest : ∀ d ∈ c' :: cs', ∀ b ∈ d, b ∉ src :=
        fun d hd => hch d (List.mem_cons_of_mem _ hd)
      have hjw : joinWith src (c :: c' :: cs')
          = c ++ (src ++ joinWith src (c' :: cs')) := by
        simp [joinWith, List.append_assoc]
      rw [hjw, replaceAll_append_left hs c hc _, replaceAll_head_match hs _,
        ih hrest]
      simp [joinWith, List.append_assoc]

/-- C2 counterexample (to the claim as stated): with source root `/r`
(bytes `[47, 114]`) and destination root `/r2` (bytes `[47, 114, 50]`) —
the destination path extending the source path, as happens whenever the
worktree directory name extends the repository directory name — a
matched text file consisting of the source path is rewritten to the
destination path, which still contains the source path once, not zero
times. -/
theorem claim_C2_counterexample :
    GitIgnore.Match ⟨[['v']]⟩ ['v'] = true ∧
    isValidText [47, 114] = true ∧
    (WorkerPool.processFile ⟨[['v']]⟩ [47, 114] [47, 114, 50] ['v']
      [47, 114]).newContent = [47, 114, 50] ∧
    occ [47, 114] (WorkerPool.processFile ⟨[['v']]⟩ [47, 114] [47, 114, 50]
      ['v'] [47, 114]).newContent = 1 := by
  have hm : GitIgnore.Match ⟨[['v']]⟩ ['v'] = true := by decide
  have ht : isValidText [47, 114] = true := by decide
  have hra : replaceAll [47, 114] [47, 114, 50] [47, 114] = [47, 114, 50] := by
    simp [replaceAll, List.isPrefixOf]
  have hpf : WorkerPool.processFile ⟨[['v']]⟩ [47, 114] [47, 114, 50] ['v']
      [47, 114] = ⟨[47, 114, 50], true⟩ := by
    simp only [WorkerPool.processFile, hm, ht, Bool.not_true, Bool.false_eq_true,
      if_false, hra]
    rw [if_pos (by decide)]
  rw [hpf]
  exact ⟨hm, ht, rfl, by decide⟩

/-- C2 (amended): for a matched text file the rewrite pass replaces the
occurrences of the absolute source root path with the destination root
path (greedy, left to right) and writes the file back exactly when that
changed the content.  The exact counting consequence — afterwards the
file contains the destination root path as many times as it contained
the source root path, and zero occurrences of the source root path —
holds when the source path is non-empty, the destination path does not
contain the source path, and the occurrences of the source path in the
file are separated and flanked by non-empty stretches of bytes occurring
in neither root path.  (Without such non-interference conditions the
count fails, e.g. when the destination path extends the source path.) -/
theorem claim_C2_amended_rewrite_counts :
    ∀ (g : GitIgnore) (relPath : List Char) (srcB dstB : List Nat)
      (chunks : List (List Nat)) (content : List Nat),
    content = joinWith srcB chunks →
    g.Match relPath = true →
    isValidText content = true →
    srcB ≠ [] → dstB ≠ [] →
    occ srcB dstB = 0 →
    (∀ c ∈ chunks, c ≠ [] ∧ ∀ b ∈ c, b ∉ srcB ∧ b ∉ dstB) →
    (WorkerPool.processFile g srcB dstB relPath content).newContent
        = joinWith dstB chunks ∧
    occ srcB content = chunks.length - 1 ∧
    occ dstB (WorkerPool.processFile g srcB dstB relPath content).newContent
        = occ srcB content ∧
    occ srcB (WorkerPool.processFile g srcB dstB relPath content).newContent
        = 0 ∧
    ((WorkerPool.processFile g srcB dstB relPath content).wrote = true ↔
      (WorkerPool.processFile g srcB dstB relPath content).newContent
        ≠ content) := by
  intro g rp srcB dstB chunks content hcontent hmatch htext hs hd hsd hch
  have hchs : ∀ c ∈ chunks, c ≠ [] ∧ ∀ b ∈ c, b ∉ srcB :=
    fun c hc => ⟨(hch c hc).1, fun b hb => ((hch c hc).2 b hb).1⟩
  have hchd : ∀ c ∈ chunks, c ≠ [] ∧ ∀ b ∈ c, b ∉ dstB :=
    fun c hc => ⟨(hch c hc).1, fun b hb => ((hch c hc).2 b hb).2⟩
  have hnewc : replaceAll srcB dstB content = joinWith dstB chunks := by
    rw [hcontent]
    exact replaceAll_joinWith hs chunks fun c hc b hb => ((hch c hc).2 b hb).1
  have hsrc_content : occ srcB content = chunks.length - 1 := by
    rw [hcontent, occ_joinWith hs chunks hchs, occ_self hs, Nat.mul_one]
  have hdst_res : occ dstB (joinWith dstB chunks) = chunks.length - 1 := by
    rw [occ_joinWith hd chunks hchd, occ_self hd, Nat.mul_one]
  have hsrc_res : occ srcB (joinWith dstB chunks) = 0 := by
    rw [occ_joinWith hs chunks hchs, hsd, Nat.mul_zero]
  have hpf : WorkerPool.processFile g srcB dstB rp content
      = if content ≠ replaceAll srcB dstB content
        then ⟨replaceAll srcB dstB content, true⟩ else ⟨content, false⟩ := by
    simp only [WorkerPool.processFile, hmatch, htext, Bool.not_true,
      Bool.false_eq_true, if_false]
  by_cases hchg : content = replaceAll srcB dstB content
  · rw [hpf, if_neg (by simpa using hchg)]
    refine ⟨by rw [← hnewc, ← hchg], hsrc_content, ?_, ?_, ?_⟩
    · rw [hsrc_content, hchg, hnewc, hdst_res]
    · rw [hchg, hnewc, hsrc_res]
    · simp
  · rw [hpf, if_pos (by simpa using hchg)]
    refine ⟨hnewc, hsrc_content, ?_, ?_, ?_⟩
    · rw [hnewc, hdst_res, hsrc_content]
    · rw [hnewc, hsrc_res]
    · simpa using fun h => hchg h.symm

/-- C2 witness: the amended theorem at concrete inputs — source root
`/s` (`[47, 115]`), destination root `/d` (`[47, 100]`), and the matched
text file `h/sh` (`[104, 47, 115, 104]`), which contains the source path
once: it is rewritten to `h/dh`, containing the destination path once
and the source path never, and is written back. -/
theorem claim_C2_amended_witness :
    (WorkerPool.processFile ⟨[['v']]⟩ [47, 115] [47, 100] ['v']
      [104, 47, 115, 104]).newContent = [104, 47, 100, 104] ∧
    occ [47, 115] [104, 47, 115, 104] = 1 ∧
    occ [47, 100] [104, 47, 100, 104] = 1 ∧
    occ [47, 115] [104, 47, 100, 104] = 0 ∧
    (WorkerPool.processFile ⟨[['v']]⟩ [47, 115] [47, 100] ['v']
      [104, 47, 115, 104]).wrote = true := by
  have h := claim_C2_amended_rewrite_counts ⟨[['v']]⟩ ['v'] [47, 115] [47, 100]
    [[104], [104]] [104, 47, 115, 104]
    (by simp [joinWith]) (by decide) (by decide) (by decide) (by decide)
    (by decide) (by decide)
  have hjw : joinWith [47, 100] [[104], [104]] = [104, 47, 100, 104] := by
    simp [joinWith]
  refine ⟨by rw [h.1, hjw], by simpa using h.2.1, ?_, ?_, ?_⟩
  · have := h.2.2.1
    rw [h.1, hjw, h.2.1] at this
    simpa using this
  · have := h.2.2.2.1
    rw [h.1, hjw] at this
    exact this
  · have hne : (WorkerPool.processFile ⟨[['v']]⟩ [47, 115] [47, 100] ['v']
        [104, 47, 115, 104]).newContent ≠ [104, 47, 115, 104] := by
      rw [h.1, hjw]
      decide
    exact h.2.2.2.2.mpr hne

end Coworktree
